import Mathlib

/-!
Verification development for the yamlator repository.

The repository holds three generations of the same tool:
* `yamler/` — the earliest validation engine (`yamler/wrangler.py`);
* `src/` — the intermediate schema compiler (`src/parser.py`, `src/types.py`,
  `src/exceptions.py`);
* `yamlator/` — the latest parser/loader and validators
  (`yamlator/parser/loaders.py`, `yamlator/validators/*.py`).

Each Python function relevant to the claims is embedded below as an
executable Lean definition; Python dicts are modelled as association lists
with dict update semantics, Python exceptions as `Except` errors.
-/

/- ===================================================================
   Python dict model: association lists with dict semantics
   =================================================================== -/
/-- Python `d.get(k)` / `d[k]`: first binding of `k`, if any. -/
def dictGet {α : Type} : List (String × α) → String → Option α
  | [], _ => none
  | (k0, v0) :: rest, k => if k0 == k then some v0 else dictGet rest k

/-- Python `d[k] = v`: replace the binding in place if the key is present,
otherwise append a new binding at the end (insertion order semantics). -/
def dictSet {α : Type} : List (String × α) → String → α → List (String × α)
  | [], k, v => [(k, v)]
  | (k0, v0) :: rest, k, v =>
    if k0 == k then (k0, v) :: rest else (k0, v0) :: dictSet rest k v

/-- Python `del d[k]` for a dict with unique keys: drop the first binding. -/
def dictRemove {α : Type} : List (String × α) → String → List (String × α)
  | [], _ => []
  | (k0, v0) :: rest, k =>
    if k0 == k then rest else (k0, v0) :: dictRemove rest k

/-- Python `k in d`. -/
def hasKey {α : Type} (tbl : List (String × α)) (k : String) : Bool :=
  (dictGet tbl k).isSome

/- ===================================================================
   yamler/wrangler.py — the earliest validation engine (claims C1-C3)
   =================================================================== -/
/-- Runtime type tags of the Python values a YAML document can contain.
`type(x)` of a Python bool is `bool`, never `int`, so the tags are exact. -/
inductive PyType where
  | tstr
  | tint
  | tfloat
  | tbool
  | tlist
  | tdict
deriving DecidableEq, Repr

/-- A YAML data tree as loaded into Python values. -/
inductive PyVal where
  | vstr (s : String)
  | vint (n : Int)
  | vfloat (mantissa : Int)
  | vbool (b : Bool)
  | vlist (xs : List PyVal)
  | vdict (entries : List (String × PyVal))

/-- Python `type(v)` on a data value. -/
def PyVal.typeOf : PyVal → PyType
  | .vstr _ => .tstr
  | .vint _ => .tint
  | .vfloat _ => .tfloat
  | .vbool _ => .tbool
  | .vlist _ => .tlist
  | .vdict _ => .tdict

/-- `type.__name__` of the Python type object. -/
def pyTypeName : PyType → String
  | .tstr => "str"
  | .tint => "int"
  | .tfloat => "float"
  | .tbool => "bool"
  | .tlist => "list"
  | .tdict => "dict"

/-- The value stored under `rtype["type"]` in a yamler rule: either a Python
type object (`str`, `int`, `list`, ...) or the string `'ruleset'`. -/
inductive WranglerType where
  | prim (t : PyType)
  | wruleset
deriving DecidableEq, Repr

/-- The `rtype` dict of a yamler rule: `{"type": ..., "lookup": ...}`.
`lookup` is only meaningful when `type` is `'ruleset'`. -/
structure WRuleType where
  type : WranglerType
  lookup : String
deriving DecidableEq, Repr

/-- One rule dict of a yamler ruleset: `{"name", "rtype", "required"}`. -/
structure WRule where
  name : String
  rtype : WRuleType
  required : Bool
deriving DecidableEq, Repr

/-- A ruleset dict: `{"rules": [...]}`. -/
structure WRuleset where
  rules : List WRule
deriving DecidableEq, Repr

/-- One entry of the violations dict built by the wrangler: a dict that may
hold a `"required"` message and/or a `"type"` message. -/
structure WViolEntry where
  required : Option String := none
  type : Option String := none
deriving DecidableEq, Repr

/-- The violations dict: field name to violation entry. -/
abbrev WViolations := List (String × WViolEntry)

/-- The parser instructions consumed by `YamlerWrangler`:
`{'main': {...}, 'rules': {...}}`. -/
structure WInstructions where
  main : Option WRuleset := none
  rules : List (String × WRuleset) := []

/-- Python exceptions the wrangler can raise while walking the data. -/
inductive PyErr where
  | attributeError
  | typeError
deriving DecidableEq, Repr

/-- `YamlerWrangler._required_resolve`: record `"{name} is missing"` under the
`"required"` key of the field's violation entry. -/
def required_resolve (name : String) (violations : WViolations) : WViolations :=
  let sub := (dictGet violations name).getD {}
  dictSet violations name { sub with required := some (name ++ " is missing") }

/-- The comparison `type(sub_data) == rtype["type"]` of `_wrangle`: an absent
value has type `NoneType`, and a Python type object never equals the string
`'ruleset'`. -/
def typeEq : Option PyVal → WranglerType → Bool
  | none, _ => false
  | some v, .prim t => v.typeOf == t
  | some _, .wruleset => false

/-- `YamlerWrangler._missing_type_resolve`: skip absent values, accept a dict
for a ruleset, otherwise record a `"type"` message for the field. -/
def missing_type_resolve (data : Option PyVal) (name : String) (expected : WranglerType)
    (violations : WViolations) : WViolations :=
  match data with
  | none => violations
  | some d =>
    if d.typeOf = PyType.tdict ∧ expected = WranglerType.wruleset then violations
    else
      let sub := (dictGet violations name).getD {}
      let msg := match expected with
        | .wruleset => name ++ " should be of type(ruleset)"
        | .prim t => name ++ " should be of type(" ++ pyTypeName t ++ ")"
      dictSet violations name { sub with type := some msg }

/-- `YamlerWrangler._wrangle`: iterate the rules of a ruleset against `data`.
`data.get(name)` raises `AttributeError` when `data` is not a dict, and the
recursion into a ruleset-typed field happens whenever the value is present —
even when it is not a dict. A missing named ruleset raises `TypeError`
(`None['rules']`). -/
def wrangleRules (ins : List (String × WRuleset)) (data : PyVal) (rules : List WRule)
    (violations : WViolations) (parent : String) : Except PyErr WViolations :=
  match rules with
  | [] => .ok violations
  | rule :: rest =>
    match hdata : data with
    | PyVal.vdict m =>
      match hsd : dictGet m rule.name with
      | some sd =>
        let viol1 := if typeEq (some sd) rule.rtype.type then violations
          else missing_type_resolve (some sd) rule.name rule.rtype.type violations
        if rule.rtype.type = WranglerType.wruleset then
          match dictGet ins rule.rtype.lookup with
          | none => .error PyErr.typeError
          | some rs =>
            match wrangleRules ins sd rs.rules viol1 rule.name with
            | .error e => .error e
            | .ok viol2 => wrangleRules ins data rest viol2 parent
        else
          wrangleRules ins data rest viol1 parent
      | none =>
        let viol1 := if typeEq none rule.rtype.type then violations
          else missing_type_resolve none rule.name rule.rtype.type violations
        if rule.required then
          wrangleRules ins data rest (required_resolve rule.name viol1) parent
        else
          wrangleRules ins data rest viol1 parent
    | _ => .error PyErr.attributeError
termination_by (sizeOf data, rules.length)
decreasing_by
  · have hall : ∀ (l : List (String × PyVal)) (k : String) (v : PyVal),
        dictGet l k = some v → sizeOf v < sizeOf l := by
      intro l
      induction l with
      | nil => intro k v h; simp [dictGet] at h
      | cons hd tl ih =>
        intro k v h
        obtain ⟨k0, v0⟩ := hd
        by_cases hk : k0 == k
        · simp [dictGet, hk] at h
          subst h
          simp
          omega
        · simp [dictGet, hk] at h
          have := ih k v h
          simp
          omega
    apply Prod.Lex.left
    have := hall m rule.name sd hsd
    subst hdata
    simp
    omega
  · subst hdata
    apply Prod.Lex.right
    simp
  · subst hdata
    apply Prod.Lex.right
    simp
  · subst hdata
    apply Prod.Lex.right
    simp
  · subst hdata
    apply Prod.Lex.right
    simp

/-- `YamlerWrangler.wrangle`: run the main ruleset's rules over the document
with an empty violations dict and an empty parent path. -/
def wrangle (ins : WInstructions) (yaml_data : PyVal) : Except PyErr WViolations :=
  let main_rules := (ins.main.map WRuleset.rules).getD []
  wrangleRules ins.rules yaml_data main_rules [] ""

/-- Concrete instructions for the ruleset-recursion bug: field `f` is typed
as ruleset `R`, and `R` has one required `str` rule. -/
def insRulesetBug : WInstructions :=
  { main := some ⟨[⟨"f", ⟨WranglerType.wruleset, "R"⟩, true⟩]⟩,
    rules := [("R", ⟨[⟨"x", ⟨WranglerType.prim PyType.tstr, ""⟩, true⟩]⟩)] }

/-- Concrete document for the ruleset-recursion bug: `f` holds a string,
not a mapping. -/
def dataRulesetBug : PyVal := .vdict [("f", .vstr "hello")]

/- ===================================================================
   yamlator/validators/regex_validator.py (claim C4)
   =================================================================== -/
/-- The schema type tags of the yamlator generation
(`yamlator.types.SchemaTypes`). -/
inductive SchemaTypes where
  | STR
  | INT
  | FLOAT
  | MAP
  | LIST
  | ENUM
  | RULESET
  | ANY
  | REGEX
  | BOOL
  | UNKNOWN
deriving DecidableEq, Repr

/-- A compiled regular expression as the validator sees it: an object whose
`search` method is applied to a candidate string (truthy on a match found
anywhere in the string, which is Python `re` search semantics, not
full-match), plus its source pattern text used in violation messages. -/
structure CompiledPattern where
  pattern : String
  search : String → Bool

/-- The rule type consumed by the yamlator validators: a regex rule carries
its compiled pattern, every other kind only its tag (`schema_type`). -/
inductive YRuleType where
  | regex (p : CompiledPattern)
  | other (t : SchemaTypes)

/-- `RuleType.schema_type` of the yamlator generation. -/
def YRuleType.schema_type : YRuleType → SchemaTypes
  | .regex _ => .REGEX
  | .other t => t

/-- Modelled from the spec: the violation records of `yamlator.violations`
(not under src/) - a type violation carries key, parent and message, and
`RegexTypeViolation(key, parent, data, regex)` carries the offending value
and the pattern. -/
inductive YViolation where
  | typeV (key : String) (parent : String) (message : String)
  | regexV (key : String) (parent : String) (data : String) (pattern : String)
deriving DecidableEq, Repr

/-- Number of PatternMismatch (`RegexTypeViolation`) entries in a violation
list. -/
def countRegexViolations (vs : List YViolation) : Nat :=
  vs.countP (fun v => match v with | .regexV _ _ _ _ => true | _ => false)

/-- The delegation target of a chained validator
(`super().validate(...)` in `base_validator.Validator`). -/
abbrev NextValidator :=
  String → PyVal → String → YRuleType → Bool → List YViolation → List YViolation

/-- `RegexValidator.validate`: delegate non-regex rules to the next validator
in the chain; for a regex rule require a string (adding a type violation via
`Validator._add_type_violation`, modelled from the spec as appending a
`TypeViolation(key, parent, message)`), then run the compiled pattern's
search and append a `RegexTypeViolation` when it finds no match. -/
def RegexValidator.validate (next_validate : NextValidator) (key : String)
    (data : PyVal) (parent : String) (rtype : YRuleType) (is_required : Bool)
    (violations : List YViolation) : List YViolation :=
  match rtype with
  | .other _ => next_validate key data parent rtype is_required violations
  | .regex p =>
    match data with
    | .vstr s =>
      if ¬ p.search s then violations ++ [.regexV key parent s p.pattern]
      else violations
    | _ => violations ++ [.typeV key parent (key ++ " should be of type str")]

/-- A concrete compiled pattern for the C4 witness: Python
`re.compile("[0-9]")`, whose `search` is truthy exactly when the string
contains a digit anywhere (search, not full-match). -/
def digitPattern : CompiledPattern :=
  { pattern := "[0-9]", search := fun s => s.data.any Char.isDigit }

/- ===================================================================
   yamlator/parser/loaders.py: resolve_unknown_types (claim C5)
   =================================================================== -/
/-- The loop body of `resolve_unknown_types`, after reordering: the Python
code pops unknown nodes from the end of the list, so this helper consumes
the reversed list front to back. Each node is identified by its `lookup`
name; the in-place rewrite of `curr.schema_type` is modelled by returning
the assignment chosen for each node. A name found in neither table raises
`ConstructNotFoundError(curr.lookup)`, modelled as an error carrying the
lookup name. -/
def resolveUnknownsLoop {ρ ε : Type} (rulesets : List (String × ρ))
    (enums : List (String × ε)) : List String → Except String (List (String × SchemaTypes))
  | [] => .ok []
  | curr :: rest =>
    if (dictGet enums curr).isSome then
      (resolveUnknownsLoop rulesets enums rest).map (fun l => (curr, SchemaTypes.ENUM) :: l)
    else if (dictGet rulesets curr).isSome then
      (resolveUnknownsLoop rulesets enums rest).map (fun l => (curr, SchemaTypes.RULESET) :: l)
    else
      .error curr

/-- `resolve_unknown_types(unknown_types, rulesets, enums)`: resolve every
unknown node, popping from the end of the list. -/
def resolve_unknown_types {ρ ε : Type} (unknown_types : List String)
    (rulesets : List (String × ρ)) (enums : List (String × ε)) :
    Except String (List (String × SchemaTypes)) :=
  resolveUnknownsLoop rulesets enums unknown_types.reverse

/- ===================================================================
   src/parser.py: SchemaTransformer (claims C6 and C9)
   =================================================================== -/
/-- `src.types.RuleType`: type tag plus the optional lookup name (for
ruleset/enum references), optional sub type (for list/map) and optional
regex pattern text. -/
inductive RuleTypeM where
  | mk (type : SchemaTypes) (lookup : Option String) (sub_type : Option RuleTypeM)
      (regex : Option String)

/-- `src.types.Rule` namedtuple `(name, rtype, is_required)`. -/
structure RuleM where
  name : String
  rtype : RuleTypeM
  is_required : Bool

/-- `src.types.EnumItem` namedtuple `(name, value)`. -/
structure EnumItemM where
  name : String
  value : String
deriving DecidableEq, Repr

/-- `src.types.YamlatorRuleset`: a named, ordered list of rules. -/
structure YamlatorRuleset where
  name : String
  rules : List RuleM

/-- `src.types.YamlatorEnum`: a name plus the dict raw value -> item. -/
structure YamlatorEnum where
  name : String
  items : List (String × EnumItemM)
deriving DecidableEq, Repr

/-- A type expression as it appears in the schema source, before the
transformer reduces it to a `RuleTypeM`. -/
inductive TypeExprM where
  | str
  | int
  | float
  | bool
  | any
  | listT (t : TypeExprM)
  | mapT (t : TypeExprM)
  | regexT (pattern : String)
  | ref (name : String)
deriving DecidableEq, Repr

/-- A top-level construct declaration of one schema file, in source order.
The unnamed `schema { ... }` block is represented as a ruleset named
`"main"` (`SchemaTransformer.schema_entry`). -/
inductive DeclM where
  | ruleset (name : String) (rules : List (String × TypeExprM × Bool))
  | enum (name : String) (items : List EnumItemM)
deriving DecidableEq, Repr

/-- The name under which a declaration registers itself in
`seen_constructs`. -/
def DeclM.declName : DeclM → String
  | .ruleset n _ => n
  | .enum n _ => n

/-- The transformer's symbol table `SchemaTransformer.seen_constructs`:
construct name to construct kind. In Python this is a class attribute, so
it survives from one `parse_schema` call to the next; the embedding makes
that state an explicit argument threaded through the run. -/
abbrev SeenConstructs := List (String × SchemaTypes)

/-- `ConstructNotFoundError`: message built from the missing construct
name. -/
def constructNotFoundMessage (construct_name : String) : String :=
  "Type " ++ construct_name ++ " was not found in the schema definition"

/-- Reduction of one type expression, as performed bottom-up by the
transformer callbacks (`str_type`, `int_type`, `list_type`, `map_type`,
`regex_type`, and `container_type` for a reference). `container_type`
consults `seen_constructs` and raises `ConstructNotFoundError(name)` when
the name has not been reduced yet; the error carries the missing name. -/
def reduceTypeExpr (seen : SeenConstructs) : TypeExprM → Except String RuleTypeM
  | .str => .ok (.mk SchemaTypes.STR none none none)
  | .int => .ok (.mk SchemaTypes.INT none none none)
  | .float => .ok (.mk SchemaTypes.FLOAT none none none)
  | .bool => .ok (.mk SchemaTypes.BOOL none none none)
  | .any => .ok (.mk SchemaTypes.ANY none none none)
  | .listT t =>
    match reduceTypeExpr seen t with
    | .error e => .error e
    | .ok st => .ok (.mk SchemaTypes.LIST none (some st) none)
  | .mapT t =>
    match reduceTypeExpr seen t with
    | .error e => .error e
    | .ok st => .ok (.mk SchemaTypes.MAP none (some st) none)
  | .regexT pattern => .ok (.mk SchemaTypes.REGEX none none (some pattern))
  | .ref name =>
    match dictGet seen name with
    | none => .error name
    | some schema_type => .ok (.mk schema_type (some name) none none)

/-- Reduction of a ruleset body: each field rule's type expression is
reduced (`required_rule` / `optional_rule`), in declaration order, before
the enclosing `ruleset` callback runs. -/
def reduceFields (seen : SeenConstructs) :
    List (String × TypeExprM × Bool) → Except String (List RuleM)
  | [] => .ok []
  | (fname, texpr, req) :: rest =>
    match reduceTypeExpr seen texpr with
    | .error e => .error e
    | .ok rt =>
      match reduceFields seen rest with
      | .error e => .error e
      | .ok rl => .ok (⟨fname, rt, req⟩ :: rl)

/-- One reduced top-level instruction as handed to
`SchemaTransformer.start`. -/
inductive InstrM where
  | rulesetI (r : YamlatorRuleset)
  | enumI (e : YamlatorEnum)

/-- Reduction of one top-level declaration: the children (field rules or
enum items) are reduced first, then the construct registers itself in
`seen_constructs` (`SchemaTransformer.ruleset` / `SchemaTransformer.enum`)
and the construct object is produced. -/
def transformDecl (seen : SeenConstructs) : DeclM → Except String (SeenConstructs × InstrM)
  | .ruleset name rules =>
    match reduceFields seen rules with
    | .error e => .error e
    | .ok rl => .ok (dictSet seen name SchemaTypes.RULESET, .rulesetI ⟨name, rl⟩)
  | .enum name items =>
    let itemsDict := items.foldl (fun acc item => dictSet acc item.value item) []
    .ok (dictSet seen name SchemaTypes.ENUM, .enumI ⟨name, itemsDict⟩)

/-- Modelled from the spec: lark's `Transformer.transform` visits the parse
tree bottom-up with the top-level constructs reduced in source order, so the
whole file reduces to the instruction list while `seen_constructs` grows by
each declared name as its declaration is passed. -/
def transformFile (seen : SeenConstructs) :
    List DeclM → Except String (SeenConstructs × List InstrM)
  | [] => .ok (seen, [])
  | d :: rest =>
    match transformDecl seen d with
    | .error e => .error e
    | .ok (seen1, instr) =>
      match transformFile seen1 rest with
      | .error e => .error e
      | .ok (seen2, instrs) => .ok (seen2, instr :: instrs)

/-- The dict returned by `SchemaTransformer.start`: instructions bucketed by
the ruleset/enum handler chain, with the `"main"` ruleset pulled out as the
entry point and removed from the ruleset dict. -/
structure SchemaDict where
  main : Option YamlatorRuleset
  rules : List (String × YamlatorRuleset)
  enums : List (String × YamlatorEnum)

/-- `SchemaTransformer.start` plus the two `_InstructionHandler`s: bucket
every instruction by kind into name-keyed dicts, then split off `main`. -/
def startInstr (instructions : List InstrM) : SchemaDict :=
  let buckets := instructions.foldl
    (fun (acc : List (String × YamlatorRuleset) × List (String × YamlatorEnum)) instr =>
      match instr with
      | .rulesetI r => (dictSet acc.1 r.name r, acc.2)
      | .enumI e => (acc.1, dictSet acc.2 e.name e))
    ([], [])
  let root := dictGet buckets.1 "main"
  match root with
  | none => ⟨none, buckets.1, buckets.2⟩
  | some r => ⟨some r, dictRemove buckets.1 "main", buckets.2⟩

/-- `parse_schema(schema_content)`: parse and transform one schema source.
The `seen` argument models the process-wide class attribute
`SchemaTransformer.seen_constructs` as it stands when the call starts; the
returned table is its state after the call. -/
def parse_schema (seen : SeenConstructs) (decls : List DeclM) :
    Except String (SeenConstructs × SchemaDict) :=
  match transformFile seen decls with
  | .error e => .error e
  | .ok (seen1, instrs) => .ok (seen1, startInstr instrs)

/-- Concrete source declaring ruleset `Foo` (used for C9). -/
def declsDefFoo : List DeclM := [.ruleset "Foo" [("x", .str, true)]]

/-- Concrete source referencing `Foo` without declaring or importing it
(used for C9). -/
def declsRefFoo : List DeclM := [.ruleset "Bar" [("y", .ref "Foo", true)]]

/-- The schema dict produced by compiling `declsDefFoo`. -/
def schemaDictFoo : SchemaDict :=
  ⟨none, [("Foo", ⟨"Foo", [⟨"x", .mk SchemaTypes.STR none none none, true⟩]⟩)], []⟩

/- ===================================================================
   src/parser.py: syntax error classification (claim C7)
   =================================================================== -/
/-- The known bad-pattern classes of `_handleGrammarFailure`:
`MalformedRulesetNameError`, `MalformedEnumNameError`, `MissingRulesError`. -/
inductive BadPatternClass where
  | malformedRulesetName
  | malformedEnumName
  | missingRules
deriving DecidableEq, Repr

/-- The `label` class attribute of each specific error class. -/
def badPatternLabel : BadPatternClass → String
  | .malformedRulesetName => "Invalid ruleset name"
  | .malformedEnumName => "Invalid enum name"
  | .missingRules => "Missing rules"

/-- The exemplar inputs handed to `UnexpectedInput.match_examples` for each
error class. -/
def badPatternExamples : BadPatternClass → List String
  | .malformedRulesetName => ["ruleset foo", "ruleset 1234Foo", "ruleset FOO"]
  | .malformedEnumName => ["enum foo", "enum 1234Foo", "enum FOO"]
  | .missingRules => ["ruleset Foo \x7b\x7d", "schema \x7b\x7d"]

/-- The data `_handleGrammarFailure` reads off the lark `UnexpectedInput`:
the 1-based line and column of the failure and the rendered context snippet
`u.get_context(content)`. -/
structure UnexpectedInputM where
  line : Nat
  column : Nat
  context : String
deriving DecidableEq, Repr

/-- A raised `SchemaSyntaxError`: the optional class label plus the
constructor arguments `(context, line, column)`. -/
structure SchemaSyntaxErrorM where
  label : Option String
  context : String
  line : Nat
  column : Nat
deriving DecidableEq, Repr

/-- `SchemaSyntaxError.__str__`: the generic message when `label` is `None`,
the labelled message otherwise. -/
def schemaSyntaxErrorStr (e : SchemaSyntaxErrorM) : String :=
  match e.label with
  | none => "Error on line " ++ toString e.line ++ ", column "
      ++ toString e.column ++ ".\n\n" ++ e.context
  | some l => l ++ " at line " ++ toString e.line ++ ", column "
      ++ toString e.column ++ ".\n\n" ++ e.context

/-- `_handleGrammarFailure`: `matched` is the outcome of lark's
`match_examples` over `badPatternExamples` (modelled from the spec, the
matching itself lives in the lark library); a match raises the
corresponding labelled error class, no match raises the generic
`SchemaSyntaxError`, both built from `(u.get_context(content), u.line,
u.column)`. -/
def handleGrammarFailure (matched : Option BadPatternClass)
    (u : UnexpectedInputM) : SchemaSyntaxErrorM :=
  match matched with
  | none => ⟨none, u.context, u.line, u.column⟩
  | some c => ⟨some (badPatternLabel c), u.context, u.line, u.column⟩

/- ===================================================================
   yamlator/parser/loaders.py: load_schema_imports (claim C8)
   =================================================================== -/
/-- The inner loop of `load_schema_imports` for one import statement: for
each requested resource name, copy the ruleset of that name from the
imported schema if there is one, otherwise copy the enum of that name if
there is one, otherwise silently skip the name. Copies land in the root
(importing) namespaces under the copied construct's `name`. -/
def mergeImportResources (imported_rulesets : List (String × YamlatorRuleset))
    (imported_enums : List (String × YamlatorEnum)) :
    List String → List (String × YamlatorRuleset) → List (String × YamlatorEnum) →
    List (String × YamlatorRuleset) × List (String × YamlatorEnum)
  | [], root_rulesets, root_enums => (root_rulesets, root_enums)
  | resource :: rest, root_rulesets, root_enums =>
    match dictGet imported_rulesets resource with
    | some ruleset =>
      mergeImportResources imported_rulesets imported_enums rest
        (dictSet root_rulesets ruleset.name ruleset) root_enums
    | none =>
      match dictGet imported_enums resource with
      | some enum =>
        mergeImportResources imported_rulesets imported_enums rest
          root_rulesets (dictSet root_enums enum.name enum)
      | none => mergeImportResources imported_rulesets imported_enums rest
          root_rulesets root_enums

/- ===================================================================
   yamlator/parser/loaders.py: fetch_schema_path and
   parse_yamlator_schema (claim C10)
   =================================================================== -/
/-- A Python string, modelled as its character list. -/
abbrev PyString := List Char

/-- Python exceptions raised along the schema loading pipeline. -/
inductive LoaderErr where
  | typeError
  | valueError
  | otherError (msg : String)
deriving DecidableEq, Repr

/-- Python `s.split(sep)` for a one-character separator: splits on every
occurrence and keeps empty pieces. -/
def pySplit (sep : Char) : PyString → List PyString
  | [] => [[]]
  | c :: rest =>
    let r := pySplit sep rest
    if c == sep then [] :: r
    else
      match r with
      | [] => [[c]]
      | h :: t => (c :: h) :: t

/-- `os.path.join(first, *rest)` for at least one component, modelled as
joining with the path separator. The zero-argument call is not represented
here because Python raises `TypeError` for it; `fetch_schema_path` models
that case explicitly. -/
def osPathJoin (first : PyString) (rest : List PyString) : PyString :=
  rest.foldl (fun acc p => acc ++ ('/' :: p)) first

/-- `fetch_schema_path(schema_path)`: split the path on the backslash
character only, drop the last component, and join the remainder with
`os.path.join(*context)` — which raises `TypeError` when the split left no
components, since `join` requires at least one argument. -/
def fetch_schema_path (schema_path : PyString) : Except LoaderErr PyString :=
  let context := (pySplit '\\' schema_path).dropLast
  match context with
  | [] => .error LoaderErr.typeError
  | c :: cs => .ok (osPathJoin c cs)

/-- `parse_yamlator_schema(schema_path)`: load the schema text, parse it,
compute the import context directory with `fetch_schema_path`, then resolve
imports. The loading, parsing and import-resolution stages are passed in as
functions since they touch the file system. -/
def parse_yamlator_schema {Content PS S : Type}
    (load_schema : PyString → Except LoaderErr Content)
    (parse_schema0 : Content → Except LoaderErr PS)
    (load_schema_imports : PS → PyString → Except LoaderErr S)
    (schema_path : PyString) : Except LoaderErr S := do
  let schema_content ← load_schema schema_path
  let schema ← parse_schema0 schema_content
  let context ← fetch_schema_path schema_path
  load_schema_imports schema context

/- ===================================================================
   Helper lemmas and claim theorems
   =================================================================== -/

theorem dictGet_dictSet_self {α : Type} (d : List (String × α)) (k : String) (v : α) :
    dictGet (dictSet d k v) k = some v := by
  induction d with
  | nil => simp [dictSet, dictGet]
  | cons hd tl ih =>
    obtain ⟨k0, v0⟩ := hd
    by_cases hk : k0 == k
    · simp [dictSet, hk, dictGet]
    · simp [dictSet, hk, dictGet, ih]

theorem dictGet_dictSet_ne {α : Type} (d : List (String × α)) (k k1 : String) (v : α)
    (h : k1 ≠ k) : dictGet (dictSet d k v) k1 = dictGet d k1 := by
  induction d with
  | nil =>
    simp [dictSet, dictGet]
    intro he
    exact absurd he.symm h
  | cons hd tl ih =>
    obtain ⟨k0, v0⟩ := hd
    by_cases hk : k0 == k
    · have hk0 : k0 = k := by simpa using hk
      subst hk0
      have hne : ¬(k0 = k1) := fun he => h he.symm
      simp [dictSet, dictGet, hne]
    · simp [dictSet, hk, dictGet, ih]

/-- Claim C1: a required field whose key is absent from the data yields
exactly one MissingRequired violation for that field and nothing else: the
run over just that rule returns the violations dict with only the field's
`"required"` message set, the field's `"type"` message is untouched, every
other field's entry is untouched, and processing the rule inside a larger
rule list amounts to `required_resolve` alone — no recursion into the value
and no dependence on the ruleset table. -/
theorem required_absent_single_violation
    (ins : List (String × WRuleset)) (m : List (String × PyVal)) (rule : WRule)
    (rest : List WRule) (violations : WViolations) (parent : String)
    (habsent : dictGet m rule.name = none) (hreq : rule.required = true) :
    wrangleRules ins (PyVal.vdict m) [rule] violations parent
      = .ok (required_resolve rule.name violations)
    ∧ wrangleRules ins (PyVal.vdict m) (rule :: rest) violations parent
      = wrangleRules ins (PyVal.vdict m) rest (required_resolve rule.name violations) parent
    ∧ dictGet (required_resolve rule.name violations) rule.name
      = some { required := some (rule.name ++ " is missing"),
               type := ((dictGet violations rule.name).getD {}).type }
    ∧ (∀ k, k ≠ rule.name →
        dictGet (required_resolve rule.name violations) k = dictGet violations k) := by
  refine ⟨?_, ?_, ?_, ?_⟩
  · simp [wrangleRules, hreq, typeEq, missing_type_resolve]
    split
    next sd heq => rw [habsent] at heq; simp at heq
    next heq => rfl
  · simp [wrangleRules, hreq, typeEq, missing_type_resolve]
    split
    next sd heq => rw [habsent] at heq; simp at heq
    next heq => rfl
  · simp [required_resolve, dictGet_dictSet_self]
  · intro k hk
    simp [required_resolve, dictGet_dictSet_ne _ _ _ _ hk]

/-- Witness for C1 at a concrete schema and document. -/
theorem required_absent_single_violation_witness :
    (dictGet [("other", PyVal.vint 1)] "f" = none)
    ∧ (wrangleRules [] (PyVal.vdict [("other", PyVal.vint 1)])
        [⟨"f", ⟨WranglerType.prim PyType.tstr, ""⟩, true⟩] [] ""
        = .ok (required_resolve "f" [])
      ∧ wrangleRules [] (PyVal.vdict [("other", PyVal.vint 1)])
          (⟨"f", ⟨WranglerType.prim PyType.tstr, ""⟩, true⟩ :: []) [] ""
        = wrangleRules [] (PyVal.vdict [("other", PyVal.vint 1)]) [] (required_resolve "f" []) ""
      ∧ dictGet (required_resolve "f" []) "f"
        = some { required := some ("f" ++ " is missing"),
                 type := ((dictGet ([] : WViolations) "f").getD {}).type }
      ∧ (∀ k, k ≠ "f" → dictGet (required_resolve "f" []) k = dictGet ([] : WViolations) k)) :=
  ⟨rfl, required_absent_single_violation [] [("other", PyVal.vint 1)]
    ⟨"f", ⟨WranglerType.prim PyType.tstr, ""⟩, true⟩ [] [] "" rfl rfl⟩

/-- Claim C2: an optional field whose key is absent from the data yields zero
violations for that field and is never recursed into, whatever its declared
type: the run over just that rule returns the violations dict unchanged, and
inside a larger rule list the rule's processing is a no-op. -/
theorem optional_absent_no_violation
    (ins : List (String × WRuleset)) (m : List (String × PyVal)) (rule : WRule)
    (rest : List WRule) (violations : WViolations) (parent : String)
    (habsent : dictGet m rule.name = none) (hopt : rule.required = false) :
    wrangleRules ins (PyVal.vdict m) [rule] violations parent = .ok violations
    ∧ wrangleRules ins (PyVal.vdict m) (rule :: rest) violations parent
      = wrangleRules ins (PyVal.vdict m) rest violations parent := by
  constructor
  · simp [wrangleRules, hopt, typeEq, missing_type_resolve]
    split
    next sd heq => rw [habsent] at heq; simp at heq
    next heq => rfl
  · simp [wrangleRules, hopt, typeEq, missing_type_resolve]
    split
    next sd heq => rw [habsent] at heq; simp at heq
    next heq => rfl

/-- Witness for C2 at a concrete schema and document, with a ruleset-typed
optional field. -/
theorem optional_absent_no_violation_witness :
    (dictGet [("other", PyVal.vint 1)] "f" = none)
    ∧ (wrangleRules [("R", ⟨[]⟩)] (PyVal.vdict [("other", PyVal.vint 1)])
        [⟨"f", ⟨WranglerType.wruleset, "R"⟩, false⟩] [] "" = .ok []
      ∧ wrangleRules [("R", ⟨[]⟩)] (PyVal.vdict [("other", PyVal.vint 1)])
          (⟨"f", ⟨WranglerType.wruleset, "R"⟩, false⟩ :: []) [] ""
        = wrangleRules [("R", ⟨[]⟩)] (PyVal.vdict [("other", PyVal.vint 1)]) [] [] "") :=
  ⟨rfl, optional_absent_no_violation [("R", ⟨[]⟩)] [("other", PyVal.vint 1)]
    ⟨"f", ⟨WranglerType.wruleset, "R"⟩, false⟩ [] [] "" rfl rfl⟩

/-- Claim C3 (code bug): for a ruleset-typed field with a present non-mapping
value, `_wrangle` records the type violation but then recurses into the
non-mapping value anyway, so the whole validation run raises
`AttributeError` instead of returning the violation. -/
theorem ruleset_nonmapping_recursion_crash :
    wrangle insRulesetBug dataRulesetBug = .error PyErr.attributeError := by
  simp [wrangle, insRulesetBug, dataRulesetBug, wrangleRules, dictGet, typeEq,
    PyVal.typeOf, missing_type_resolve]

/-- Claim C4: for a regex-kind rule, a non-string value yields exactly one
TypeMismatch and never a PatternMismatch; a string value is run through the
compiled pattern's search, yielding exactly one PatternMismatch carrying the
offending value and the pattern when the search fails, and no violation when
it succeeds. -/
theorem regex_validator_dispatch (next_validate : NextValidator) (key parent : String)
    (p : CompiledPattern) (data : PyVal) (is_required : Bool)
    (violations : List YViolation) :
    ((∀ s, data ≠ PyVal.vstr s) →
      RegexValidator.validate next_validate key data parent (.regex p) is_required violations
        = violations ++ [.typeV key parent (key ++ " should be of type str")]
      ∧ countRegexViolations (RegexValidator.validate next_validate key data parent
          (.regex p) is_required violations) = countRegexViolations violations)
    ∧ (∀ s, data = PyVal.vstr s → p.search s = false →
        RegexValidator.validate next_validate key data parent (.regex p) is_required violations
          = violations ++ [.regexV key parent s p.pattern])
    ∧ (∀ s, data = PyVal.vstr s → p.search s = true →
        RegexValidator.validate next_validate key data parent (.regex p) is_required violations
          = violations) := by
  refine ⟨?_, ?_, ?_⟩
  · intro hns
    cases data with
    | vstr s => exact absurd rfl (hns s)
    | vint n => exact ⟨rfl, by simp [RegexValidator.validate, countRegexViolations]⟩
    | vfloat q => exact ⟨rfl, by simp [RegexValidator.validate, countRegexViolations]⟩
    | vbool b => exact ⟨rfl, by simp [RegexValidator.validate, countRegexViolations]⟩
    | vlist xs => exact ⟨rfl, by simp [RegexValidator.validate, countRegexViolations]⟩
    | vdict m => exact ⟨rfl, by simp [RegexValidator.validate, countRegexViolations]⟩
  · intro s hs hsearch
    subst hs
    simp [RegexValidator.validate, hsearch]
  · intro s hs hsearch
    subst hs
    simp [RegexValidator.validate, hsearch]

/-- Witness for C4: the digit pattern against a non-string, a non-matching
string and a matching string (the matching string "a1b" matches only by
search, not by full match). -/
theorem regex_validator_dispatch_witness :
    ((∀ s, PyVal.vint 5 ≠ PyVal.vstr s) →
      RegexValidator.validate (fun _ _ _ _ _ v => v) "k" (PyVal.vint 5) "p"
          (.regex digitPattern) true []
        = [] ++ [.typeV "k" "p" ("k" ++ " should be of type str")]
      ∧ countRegexViolations (RegexValidator.validate (fun _ _ _ _ _ v => v) "k"
          (PyVal.vint 5) "p" (.regex digitPattern) true []) = countRegexViolations [])
    ∧ (RegexValidator.validate (fun _ _ _ _ _ v => v) "k" (PyVal.vstr "abc") "p"
        (.regex digitPattern) true []
      = [] ++ [.regexV "k" "p" "abc" digitPattern.pattern])
    ∧ (RegexValidator.validate (fun _ _ _ _ _ v => v) "k" (PyVal.vstr "a1b") "p"
        (.regex digitPattern) true [] = []) := by
  refine ⟨?_, ?_, ?_⟩
  · exact (regex_validator_dispatch (fun _ _ _ _ _ v => v) "k" "p" digitPattern
      (PyVal.vint 5) true []).1
  · exact (regex_validator_dispatch (fun _ _ _ _ _ v => v) "k" "p" digitPattern
      (PyVal.vstr "abc") true []).2.1 "abc" rfl (by decide)
  · exact (regex_validator_dispatch (fun _ _ _ _ _ v => v) "k" "p" digitPattern
      (PyVal.vstr "a1b") true []).2.2 "a1b" rfl (by decide)

theorem resolveUnknownsLoop_ok_of_found {ρ ε : Type} (rulesets : List (String × ρ))
    (enums : List (String × ε)) (names : List String)
    (h : ∀ n ∈ names, hasKey enums n = true ∨ hasKey rulesets n = true) :
    resolveUnknownsLoop rulesets enums names
      = .ok (names.map (fun n =>
          (n, if hasKey enums n then SchemaTypes.ENUM else SchemaTypes.RULESET))) := by
  induction names with
  | nil => simp [resolveUnknownsLoop]
  | cons curr rest ih =>
    have hcur := h curr (by simp)
    have hrest : ∀ n ∈ rest, hasKey enums n = true ∨ hasKey rulesets n = true :=
      fun n hn => h n (by simp [hn])
    by_cases he : hasKey enums curr
    · simp [resolveUnknownsLoop, hasKey] at he ⊢
      simp [he, ih hrest, hasKey, Except.map]
    · have hr : hasKey rulesets curr = true := by
        rcases hcur with hce | hcr
        · exact absurd hce he
        · exact hcr
      simp [hasKey] at he hr
      simp [resolveUnknownsLoop, he, hr, ih hrest, hasKey, Except.map]

theorem resolveUnknownsLoop_error_mem {ρ ε : Type} (rulesets : List (String × ρ))
    (enums : List (String × ε)) (names : List String) (m : String)
    (h : resolveUnknownsLoop rulesets enums names = .error m) :
    m ∈ names ∧ hasKey enums m = false ∧ hasKey rulesets m = false := by
  induction names with
  | nil => simp [resolveUnknownsLoop] at h
  | cons curr rest ih =>
    by_cases he : (dictGet enums curr).isSome
    · simp [resolveUnknownsLoop, he] at h
      cases hr : resolveUnknownsLoop rulesets enums rest with
      | ok l => rw [hr] at h; simp [Except.map] at h
      | error e =>
        rw [hr] at h
        simp [Except.map] at h
        subst h
        have := ih hr
        exact ⟨by simp [this.1], this.2⟩
    · by_cases hru : (dictGet rulesets curr).isSome
      · simp [resolveUnknownsLoop, he, hru] at h
        cases hr : resolveUnknownsLoop rulesets enums rest with
        | ok l => rw [hr] at h; simp [Except.map] at h
        | error e =>
          rw [hr] at h
          simp [Except.map] at h
          subst h
          have := ih hr
          exact ⟨by simp [this.1], this.2⟩
      · simp [resolveUnknownsLoop, he, hru] at h
        subst h
        simp [hasKey] at he hru ⊢
        exact ⟨he, hru⟩

theorem resolveUnknownsLoop_ok_all_found {ρ ε : Type} (rulesets : List (String × ρ))
    (enums : List (String × ε)) (names : List String) (l : List (String × SchemaTypes))
    (h : resolveUnknownsLoop rulesets enums names = .ok l) :
    ∀ n ∈ names, hasKey enums n = true ∨ hasKey rulesets n = true := by
  induction names generalizing l with
  | nil => simp
  | cons curr rest ih =>
    intro n hn
    by_cases he : (dictGet enums curr).isSome
    · simp [resolveUnknownsLoop, he] at h
      cases hrest : resolveUnknownsLoop rulesets enums rest with
      | error e => rw [hrest] at h; simp [Except.map] at h
      | ok l2 =>
        rcases List.mem_cons.mp hn with hc | hmem
        · subst hc; exact Or.inl (by simp [hasKey, he])
        · exact ih l2 hrest n hmem
    · by_cases hru : (dictGet rulesets curr).isSome
      · simp [resolveUnknownsLoop, he, hru] at h
        cases hrest : resolveUnknownsLoop rulesets enums rest with
        | error e => rw [hrest] at h; simp [Except.map] at h
        | ok l2 =>
          rcases List.mem_cons.mp hn with hc | hmem
          · subst hc; exact Or.inr (by simp [hasKey, hru])
          · exact ih l2 hrest n hmem
      · simp [resolveUnknownsLoop, he, hru] at h

theorem resolveUnknownsLoop_error_of_unresolvable {ρ ε : Type}
    (rulesets : List (String × ρ)) (enums : List (String × ε)) (names : List String)
    (h : ∃ n ∈ names, hasKey enums n = false ∧ hasKey rulesets n = false) :
    ∃ m, resolveUnknownsLoop rulesets enums names = .error m := by
  cases hr : resolveUnknownsLoop rulesets enums names with
  | error e => exact ⟨e, rfl⟩
  | ok l =>
    exfalso
    obtain ⟨n, hn, hne, hnr⟩ := h
    rcases resolveUnknownsLoop_ok_all_found rulesets enums names l hr n hn with hc | hc
    · rw [hne] at hc; cases hc
    · rw [hnr] at hc; cases hc

/-- Claim C5: unknown-type resolution consults the merged enum table first
and the merged ruleset table second, so a name present in both becomes Enum;
when every lookup is found the nodes are rewritten accordingly (in pop
order, from the end of the list), and when some lookup is in neither table
the run fails with a construct-not-found error whose name is an unresolvable
lookup from the list. -/
theorem resolve_unknown_types_enum_first {ρ ε : Type} (unknown_types : List String)
    (rulesets : List (String × ρ)) (enums : List (String × ε)) :
    ((∀ n ∈ unknown_types, hasKey enums n = true ∨ hasKey rulesets n = true) →
      resolve_unknown_types unknown_types rulesets enums
        = .ok (unknown_types.reverse.map (fun n =>
            (n, if hasKey enums n then SchemaTypes.ENUM else SchemaTypes.RULESET))))
    ∧ (∀ m, resolve_unknown_types unknown_types rulesets enums = .error m →
        m ∈ unknown_types ∧ hasKey enums m = false ∧ hasKey rulesets m = false)
    ∧ ((∃ n ∈ unknown_types, hasKey enums n = false ∧ hasKey rulesets n = false) →
        ∃ m, resolve_unknown_types unknown_types rulesets enums = .error m) := by
  refine ⟨?_, ?_, ?_⟩
  · intro h
    exact resolveUnknownsLoop_ok_of_found rulesets enums unknown_types.reverse
      (fun n hn => h n (List.mem_reverse.mp hn))
  · intro m hm
    have := resolveUnknownsLoop_error_mem rulesets enums unknown_types.reverse m hm
    exact ⟨List.mem_reverse.mp this.1, this.2⟩
  · intro h
    obtain ⟨n, hn, hp⟩ := h
    exact resolveUnknownsLoop_error_of_unresolvable rulesets enums unknown_types.reverse
      ⟨n, List.mem_reverse.mpr hn, hp⟩

/-- Witness for C5: the name "Both" sits in both tables and resolves to Enum
(enum table first); "OnlyRules" only in the ruleset table resolves to
Ruleset; the name "Ghost" sits in neither and produces the
construct-not-found error. -/
theorem resolve_unknown_types_enum_first_witness :
    resolve_unknown_types ["Both", "OnlyRules"] [("Both", 0), ("OnlyRules", 0)] [("Both", 1)]
      = .ok [("OnlyRules", SchemaTypes.RULESET), ("Both", SchemaTypes.ENUM)]
    ∧ (∃ m, resolve_unknown_types ["Ghost"] [("Both", 0), ("OnlyRules", 0)] [("Both", 1)]
        = .error m) := by
  constructor
  · have h := (resolve_unknown_types_enum_first ["Both", "OnlyRules"]
      [("Both", 0), ("OnlyRules", 0)] [("Both", 1)]).1 (by decide)
    rw [h]
    rfl
  · exact (resolve_unknown_types_enum_first ["Ghost"]
      [("Both", 0), ("OnlyRules", 0)] [("Both", 1)]).2.2 ⟨"Ghost", by simp, by decide⟩

theorem transformFile_append (seen : SeenConstructs) (xs ys : List DeclM) :
    transformFile seen (xs ++ ys)
      = match transformFile seen xs with
        | .error e => .error e
        | .ok (s1, out1) =>
          match transformFile s1 ys with
          | .error e => .error e
          | .ok (s2, out2) => .ok (s2, out1 ++ out2) := by
  induction xs generalizing seen with
  | nil =>
    simp only [List.nil_append, transformFile]
    cases h : transformFile seen ys with
    | error e => simp
    | ok p => obtain ⟨s2, out2⟩ := p; simp
  | cons d rest ih =>
    simp only [List.cons_append, transformFile]
    cases hd : transformDecl seen d with
    | error e => simp
    | ok p =>
      obtain ⟨s1, instr⟩ := p
      simp only [List.append_eq]
      rw [ih s1]
      cases hr : transformFile s1 rest with
      | error e => simp
      | ok q =>
        obtain ⟨s2, out1⟩ := q
        cases hy : transformFile s2 ys with
        | error e => simp [hy]
        | ok r => obtain ⟨s3, out2⟩ := r; simp [hy]

theorem reduceFields_append (seen : SeenConstructs)
    (xs ys : List (String × TypeExprM × Bool)) :
    reduceFields seen (xs ++ ys)
      = match reduceFields seen xs with
        | .error e => .error e
        | .ok l1 =>
          match reduceFields seen ys with
          | .error e => .error e
          | .ok l2 => .ok (l1 ++ l2) := by
  induction xs with
  | nil =>
    simp only [List.nil_append, reduceFields]
    cases h : reduceFields seen ys with
    | error e => simp
    | ok l => simp
  | cons f rest ih =>
    obtain ⟨fname, texpr, req⟩ := f
    simp only [List.cons_append, reduceFields]
    cases ht : reduceTypeExpr seen texpr with
    | error e => simp
    | ok rt =>
      simp only [List.append_eq]
      rw [ih]
      cases hr : reduceFields seen rest with
      | error e => simp
      | ok l1 =>
        cases hy : reduceFields seen ys with
        | error e => simp [hy]
        | ok l2 => simp [hy]

/-- Claim C6: inside one file a reference resolves only against constructs
already reduced. When ruleset `a` holds a field referencing `b`, `b` is not
yet in the symbol table when that field is reduced (it is declared only
later in the file), and everything reduced before the reference succeeded,
the whole compilation fails with the construct-not-found error naming `b`;
conversely a reference to a name already present in the table reduces
successfully to the registered kind. -/
theorem forward_reference_fails (seen0 : SeenConstructs) (pre mid post : List DeclM)
    (seen1 : SeenConstructs) (out : List InstrM) (a b fname : String)
    (rules1 rest2 : List (String × TypeExprM × Bool)) (req : Bool)
    (rulesB : List (String × TypeExprM × Bool)) (rl : List RuleM)
    (hpre : transformFile seen0 pre = .ok (seen1, out))
    (hrules1 : reduceFields seen1 rules1 = .ok rl)
    (hb : dictGet seen1 b = none) :
    transformFile seen0
        (pre ++ DeclM.ruleset a (rules1 ++ (fname, TypeExprM.ref b, req) :: rest2)
          :: mid ++ DeclM.ruleset b rulesB :: post)
      = .error b
    ∧ (∀ (seen : SeenConstructs) (n : String) (k : SchemaTypes), dictGet seen n = some k →
        reduceTypeExpr seen (TypeExprM.ref n) = .ok (RuleTypeM.mk k (some n) none none)) := by
  constructor
  · rw [transformFile_append seen0
      (pre ++ DeclM.ruleset a (rules1 ++ (fname, TypeExprM.ref b, req) :: rest2) :: mid)
      (DeclM.ruleset b rulesB :: post)]
    rw [transformFile_append seen0 pre
      (DeclM.ruleset a (rules1 ++ (fname, TypeExprM.ref b, req) :: rest2) :: mid), hpre]
    have hfields : reduceFields seen1 (rules1 ++ (fname, TypeExprM.ref b, req) :: rest2)
        = .error b := by
      rw [reduceFields_append, hrules1]
      simp [reduceFields, reduceTypeExpr, hb]
    simp [transformFile, transformDecl, hfields]
  · intro seen n k hk
    simp [reduceTypeExpr, hk]

/-- Witness for C6: ruleset `A` references `B`, declared only later in the
file; the compilation errors naming `B`. -/
theorem forward_reference_fails_witness :
    transformFile [] ([] : List DeclM) = .ok ([], [])
    ∧ reduceFields [] [] = .ok []
    ∧ dictGet ([] : SeenConstructs) "B" = none
    ∧ transformFile []
        (([] : List DeclM) ++ DeclM.ruleset "A"
            (([] : List (String × TypeExprM × Bool)) ++ ("f", TypeExprM.ref "B", true) :: [])
          :: ([] : List DeclM) ++ DeclM.ruleset "B" [("z", TypeExprM.str, true)] :: [])
      = .error "B" :=
  ⟨rfl, rfl, rfl,
    (forward_reference_fails [] [] [] [] [] [] "A" "B" "f" [] [] true
      [("z", TypeExprM.str, true)] [] rfl rfl rfl).1⟩

theorem dictGet_dictSet_isSome {α : Type} (d : List (String × α)) (k k1 : String) (v : α)
    (h : (dictGet d k1).isSome = true) : (dictGet (dictSet d k v) k1).isSome = true := by
  by_cases hk : k1 = k
  · subst hk
    rw [dictGet_dictSet_self]
    rfl
  · rw [dictGet_dictSet_ne _ _ _ _ hk]
    exact h

theorem transformDecl_seen (seen : SeenConstructs) (d : DeclM) (s1 : SeenConstructs)
    (i : InstrM) (h : transformDecl seen d = .ok (s1, i)) :
    s1 = dictSet seen d.declName SchemaTypes.RULESET
    ∨ s1 = dictSet seen d.declName SchemaTypes.ENUM := by
  cases d with
  | ruleset name rules =>
    cases hr : reduceFields seen rules with
    | error e => simp [transformDecl, hr] at h
    | ok rl =>
      simp [transformDecl, hr] at h
      exact Or.inl (h.1.symm ▸ rfl)
  | enum name items =>
    simp [transformDecl] at h
    exact Or.inr (h.1.symm ▸ rfl)

theorem transformFile_preserves (ds : List DeclM) :
    ∀ (seen s2 : SeenConstructs) (out : List InstrM) (n : String),
      transformFile seen ds = .ok (s2, out) → (dictGet seen n).isSome = true →
      (dictGet s2 n).isSome = true := by
  induction ds with
  | nil =>
    intro seen s2 out n h hn
    simp [transformFile] at h
    exact h.1 ▸ hn
  | cons d rest ih =>
    intro seen s2 out n h hn
    cases hd : transformDecl seen d with
    | error e => simp [transformFile, hd] at h
    | ok p =>
      obtain ⟨s1, instr⟩ := p
      simp [transformFile, hd] at h
      cases hr : transformFile s1 rest with
      | error e => rw [hr] at h; simp at h
      | ok q =>
        obtain ⟨s3, instrs⟩ := q
        rw [hr] at h
        simp at h
        have hs1 : (dictGet s1 n).isSome = true := by
          rcases transformDecl_seen seen d s1 instr hd with he | he
          · exact he ▸ dictGet_dictSet_isSome seen _ n _ hn
          · exact he ▸ dictGet_dictSet_isSome seen _ n _ hn
        exact h.1 ▸ ih s1 s3 instrs n hr hs1

theorem transformFile_declares (ds : List DeclM) :
    ∀ (seen s2 : SeenConstructs) (out : List InstrM) (d : DeclM),
      transformFile seen ds = .ok (s2, out) → d ∈ ds →
      (dictGet s2 d.declName).isSome = true := by
  induction ds with
  | nil => intro seen s2 out d h hd; simp at hd
  | cons d0 rest ih =>
    intro seen s2 out d h hd
    cases hd0 : transformDecl seen d0 with
    | error e => simp [transformFile, hd0] at h
    | ok p =>
      obtain ⟨s1, instr⟩ := p
      simp [transformFile, hd0] at h
      cases hr : transformFile s1 rest with
      | error e => rw [hr] at h; simp at h
      | ok q =>
        obtain ⟨s3, instrs⟩ := q
        rw [hr] at h
        simp at h
        rcases List.mem_cons.mp hd with hc | hmem
        · subst hc
          have hs1 : (dictGet s1 d.declName).isSome = true := by
            rcases transformDecl_seen seen d s1 instr hd0 with he | he
            · rw [he, dictGet_dictSet_self]; rfl
            · rw [he, dictGet_dictSet_self]; rfl
          exact h.1 ▸ transformFile_preserves rest s1 s3 instrs d.declName hr hs1
        · exact h.1 ▸ ih s1 s3 instrs d hr hmem

/-- Claim C9: `seen_constructs` is class-level state shared across
compilations. Every construct declared by a successfully compiled source is
left in the table after the call; compiling a source that references `Foo`
without declaring it fails from a clean table, but succeeds when run after a
compile of a source declaring `Foo` — so the outcome of the same
`parse_schema` call depends on which compiles ran before it. -/
theorem seen_constructs_leak :
    (∀ (seen0 : SeenConstructs) (decls : List DeclM) (seen1 : SeenConstructs)
        (out : SchemaDict) (d : DeclM), parse_schema seen0 decls = .ok (seen1, out) →
        d ∈ decls → (dictGet seen1 d.declName).isSome = true)
    ∧ parse_schema [] declsRefFoo = .error "Foo"
    ∧ (∃ st out, parse_schema [] declsDefFoo = .ok (st, out)
        ∧ ∃ r, parse_schema st declsRefFoo = .ok r) := by
  refine ⟨?_, ?_, ?_⟩
  · intro seen0 decls seen1 out d h hd
    cases ht : transformFile seen0 decls with
    | error e => simp [parse_schema, ht] at h
    | ok p =>
      obtain ⟨s1, instrs⟩ := p
      simp [parse_schema, ht] at h
      exact h.1 ▸ transformFile_declares decls seen0 s1 instrs d ht hd
  · rfl
  · exact ⟨[("Foo", SchemaTypes.RULESET)], schemaDictFoo, rfl, ⟨_, rfl⟩⟩

/-- Witness for C9's universally quantified leak clause, applied to the
concrete compile of `declsDefFoo`. -/
theorem seen_constructs_leak_witness :
    parse_schema [] declsDefFoo = .ok ([("Foo", SchemaTypes.RULESET)], schemaDictFoo)
    ∧ (dictGet [("Foo", SchemaTypes.RULESET)]
        (DeclM.ruleset "Foo" [("x", TypeExprM.str, true)]).declName).isSome = true :=
  ⟨rfl, seen_constructs_leak.1 [] declsDefFoo [("Foo", SchemaTypes.RULESET)] schemaDictFoo
    (DeclM.ruleset "Foo" [("x", TypeExprM.str, true)]) rfl (by simp [declsDefFoo])⟩

/-- Claim C7: a syntax error matching a known bad-pattern exemplar class is
raised as the corresponding labelled error — one of Invalid ruleset name,
Invalid enum name, Missing rules — while an unmatched one is raised as the
generic error whose message reports the offending line and column; either
way the message ends with the context snippet of the source. -/
theorem grammar_failure_classification (matched : Option BadPatternClass)
    (u : UnexpectedInputM) :
    (matched = none →
      (handleGrammarFailure matched u).label = none
      ∧ schemaSyntaxErrorStr (handleGrammarFailure matched u)
        = "Error on line " ++ toString u.line ++ ", column "
          ++ toString u.column ++ ".\n\n" ++ u.context)
    ∧ (∀ c, matched = some c →
      (handleGrammarFailure matched u).label = some (badPatternLabel c)
      ∧ schemaSyntaxErrorStr (handleGrammarFailure matched u)
        = badPatternLabel c ++ " at line " ++ toString u.line ++ ", column "
          ++ toString u.column ++ ".\n\n" ++ u.context
      ∧ badPatternLabel c ∈ ["Invalid ruleset name", "Invalid enum name", "Missing rules"])
    ∧ (∃ s, schemaSyntaxErrorStr (handleGrammarFailure matched u) = s ++ u.context) := by
  refine ⟨?_, ?_, ?_⟩
  · intro h
    subst h
    exact ⟨rfl, by simp [handleGrammarFailure, schemaSyntaxErrorStr]⟩
  · intro c h
    subst h
    refine ⟨rfl, by simp [handleGrammarFailure, schemaSyntaxErrorStr], ?_⟩
    cases c <;> simp [badPatternLabel]
  · cases matched with
    | none =>
      exact ⟨"Error on line " ++ toString u.line ++ ", column "
        ++ toString u.column ++ ".\n\n", by simp [handleGrammarFailure, schemaSyntaxErrorStr]⟩
    | some c =>
      exact ⟨badPatternLabel c ++ " at line " ++ toString u.line ++ ", column "
        ++ toString u.column ++ ".\n\n", by simp [handleGrammarFailure, schemaSyntaxErrorStr]⟩

/-- Witness for C7: a matched malformed-ruleset-name failure and an
unmatched generic failure at line 3, column 7. -/
theorem grammar_failure_classification_witness :
    ((none : Option BadPatternClass) = none →
      (handleGrammarFailure none ⟨3, 7, "snippet"⟩).label = none
      ∧ schemaSyntaxErrorStr (handleGrammarFailure none ⟨3, 7, "snippet"⟩)
        = "Error on line " ++ toString (3 : Nat) ++ ", column "
          ++ toString (7 : Nat) ++ ".\n\n" ++ "snippet")
    ∧ ((handleGrammarFailure (some .malformedRulesetName) ⟨3, 7, "snippet"⟩).label
        = some (badPatternLabel .malformedRulesetName)) :=
  ⟨(grammar_failure_classification none ⟨3, 7, "snippet"⟩).1,
    ((grammar_failure_classification (some .malformedRulesetName) ⟨3, 7, "snippet"⟩).2.1
      .malformedRulesetName rfl).1⟩

/-- Claim C8: merging one import statement copies exactly the requested
names that the imported schema defines — rulesets first, enums for names
not defined as rulesets — and nothing else: a requested name defined
neither as a ruleset nor as an enum is silently skipped (no error is
possible, the merge is a total function), and every key outside the copied
names keeps its previous binding in the importing namespaces. -/
theorem import_merge_characterization
    (imported_rulesets : List (String × YamlatorRuleset))
    (imported_enums : List (String × YamlatorEnum))
    (resources : List String)
    (root_rulesets : List (String × YamlatorRuleset))
    (root_enums : List (String × YamlatorEnum))
    (hwfr : ∀ k v, dictGet imported_rulesets k = some v → v.name = k)
    (hwfe : ∀ k v, dictGet imported_enums k = some v → v.name = k) :
    ∀ k,
      dictGet (mergeImportResources imported_rulesets imported_enums resources
          root_rulesets root_enums).1 k
        = (if k ∈ resources ∧ (dictGet imported_rulesets k).isSome = true
           then dictGet imported_rulesets k else dictGet root_rulesets k)
      ∧ dictGet (mergeImportResources imported_rulesets imported_enums resources
          root_rulesets root_enums).2 k
        = (if k ∈ resources ∧ (dictGet imported_rulesets k).isSome = false
              ∧ (dictGet imported_enums k).isSome = true
           then dictGet imported_enums k else dictGet root_enums k) := by
  induction resources generalizing root_rulesets root_enums with
  | nil => intro k; simp [mergeImportResources]
  | cons r rest ih =>
    intro k
    cases hr : dictGet imported_rulesets r with
    | some rs =>
      have hname : rs.name = r := hwfr r rs hr
      simp only [mergeImportResources, hr]
      rw [hname]
      have IH := ih (dictSet root_rulesets r rs) root_enums k
      constructor
      · rw [IH.1]
        by_cases hk : k = r
        · subst hk
          by_cases hm : k ∈ rest <;>
            simp [hm, hr, dictGet_dictSet_self]
        · rw [dictGet_dictSet_ne _ _ _ _ hk]
          simp [List.mem_cons, hk]
      · rw [IH.2]
        by_cases hk : k = r
        · subst hk
          rw [hr]
          simp
        · simp only [List.mem_cons, hk, false_or]
    | none =>
      cases he : dictGet imported_enums r with
      | some en =>
        have hname : en.name = r := hwfe r en he
        simp only [mergeImportResources, hr, he]
        rw [hname]
        have IH := ih root_rulesets (dictSet root_enums r en) k
        constructor
        · rw [IH.1]
          by_cases hk : k = r
          · subst hk
            rw [hr]
            simp
          · simp only [List.mem_cons, hk, false_or]
        · rw [IH.2]
          by_cases hk : k = r
          · subst hk
            by_cases hm : k ∈ rest <;>
              simp [hm, hr, he, dictGet_dictSet_self]
          · rw [dictGet_dictSet_ne _ _ _ _ hk]
            simp only [List.mem_cons, hk, false_or]
      | none =>
        simp only [mergeImportResources, hr, he]
        have IH := ih root_rulesets root_enums k
        constructor
        · rw [IH.1]
          by_cases hk : k = r
          · subst hk
            rw [hr]
            simp
          · simp only [List.mem_cons, hk, false_or]
        · rw [IH.2]
          by_cases hk : k = r
          · subst hk
            rw [hr, he]
            simp
          · simp only [List.mem_cons, hk, false_or]

/-- Witness for C8: importing `["Known", "Ghost"]` where `Known` is a
defined ruleset and `Ghost` is defined nowhere copies `Known`, skips
`Ghost` silently, and leaves unrelated bindings untouched. -/
theorem import_merge_characterization_witness :
    ((∀ k v, dictGet [("Known", YamlatorRuleset.mk "Known" [])] k = some v → v.name = k)
      ∧ (∀ k (v : YamlatorEnum), dictGet [] k = some v → v.name = k))
    ∧ dictGet (mergeImportResources [("Known", YamlatorRuleset.mk "Known" [])] []
        ["Known", "Ghost"] [] [("Old", YamlatorEnum.mk "Old" [])]).1 "Known"
      = some (YamlatorRuleset.mk "Known" [])
    ∧ dictGet (mergeImportResources [("Known", YamlatorRuleset.mk "Known" [])] []
        ["Known", "Ghost"] [] [("Old", YamlatorEnum.mk "Old" [])]).1 "Ghost" = none
    ∧ dictGet (mergeImportResources [("Known", YamlatorRuleset.mk "Known" [])] []
        ["Known", "Ghost"] [] [("Old", YamlatorEnum.mk "Old" [])]).2 "Old"
      = some (YamlatorEnum.mk "Old" []) := by
  have hwfr : ∀ k v, dictGet [("Known", YamlatorRuleset.mk "Known" [])] k = some v →
      v.name = k := by
    intro k v h
    by_cases hk : "Known" = k
    · subst hk
      simp [dictGet] at h
      rw [h.symm]
    · simp [dictGet, hk] at h
  have hwfe : ∀ k (v : YamlatorEnum), dictGet [] k = some v → v.name = k := by
    intro k v h
    simp [dictGet] at h
  have h1 := import_merge_characterization [("Known", YamlatorRuleset.mk "Known" [])] []
    ["Known", "Ghost"] [] [("Old", YamlatorEnum.mk "Old" [])] hwfr hwfe "Known"
  have h2 := import_merge_characterization [("Known", YamlatorRuleset.mk "Known" [])] []
    ["Known", "Ghost"] [] [("Old", YamlatorEnum.mk "Old" [])] hwfr hwfe "Ghost"
  have h3 := import_merge_characterization [("Known", YamlatorRuleset.mk "Known" [])] []
    ["Known", "Ghost"] [] [("Old", YamlatorEnum.mk "Old" [])] hwfr hwfe "Old"
  refine ⟨⟨hwfr, hwfe⟩, ?_, ?_, ?_⟩
  · rw [h1.1]
    rfl
  · rw [h2.1]
    rfl
  · rw [h3.2]
    rfl

theorem pySplit_of_not_mem (sep : Char) (p : PyString) (h : sep ∉ p) :
    pySplit sep p = [p] := by
  induction p with
  | nil => rfl
  | cons c rest ih =>
    simp only [List.mem_cons, not_or] at h
    have hc : (c == sep) = false := by
      cases hcb : c == sep with
      | false => rfl
      | true => exact absurd (beq_iff_eq.mp hcb).symm h.1
    simp [pySplit, hc, ih h.2]

/-- Claim C10: `fetch_schema_path` splits only on the backslash, so for any
path with no backslash (every POSIX-style path) the dropped split leaves
zero components, the zero-argument join raises `TypeError`, and
`parse_yamlator_schema` on such a path can never return a schema. -/
theorem fetch_schema_path_posix_error (schema_path : PyString)
    (h : '\\' ∉ schema_path) :
    fetch_schema_path schema_path = .error LoaderErr.typeError
    ∧ ∀ {Content PS S : Type} (load_schema : PyString → Except LoaderErr Content)
        (parse_schema0 : Content → Except LoaderErr PS)
        (load_schema_imports : PS → PyString → Except LoaderErr S) (s : S),
        parse_yamlator_schema load_schema parse_schema0 load_schema_imports schema_path
          ≠ .ok s := by
  have hfetch : fetch_schema_path schema_path = .error LoaderErr.typeError := by
    simp [fetch_schema_path, pySplit_of_not_mem '\\' schema_path h]
  refine ⟨hfetch, ?_⟩
  intro Content PS S load_schema parse_schema0 load_schema_imports s hok
  cases hl : load_schema schema_path with
  | error e => simp [parse_yamlator_schema, Bind.bind, Except.bind, hl] at hok
  | ok content =>
    cases hp : parse_schema0 content with
    | error e => simp [parse_yamlator_schema, Bind.bind, Except.bind, hl, hp] at hok
    | ok ps => simp [parse_yamlator_schema, Bind.bind, Except.bind, hl, hp, hfetch] at hok

/-- Witness for C10 on the POSIX-style path `lib/schema.ys`. -/
theorem fetch_schema_path_posix_error_witness :
    ('\\' ∉ "lib/schema.ys".toList)
    ∧ fetch_schema_path "lib/schema.ys".toList = .error LoaderErr.typeError
    ∧ parse_yamlator_schema (fun _ => .ok ()) (fun _ => .ok ())
        (fun _ _ => .ok ()) "lib/schema.ys".toList ≠ .ok () := by
  have h : '\\' ∉ "lib/schema.ys".toList := by decide
  exact ⟨h, (fetch_schema_path_posix_error "lib/schema.ys".toList h).1,
    (fetch_schema_path_posix_error "lib/schema.ys".toList h).2
      (fun _ => .ok ()) (fun _ => .ok ()) (fun _ _ => .ok ()) ()⟩
